import Mathlib

/-!
Shallow embedding of the fluent-mcp schema-introspection engine
(`src/zod-schema.ts`) and of the FluentMCP tool registry, versioned
tools-list builder and protocol negotiation (`src/server.ts`).

JavaScript objects are modeled as ordered association lists of
`String × Json` entries (JS objects preserve insertion order for string
keys); property assignment and object spread are modeled by `setKey` and
`spreadInto` below.
-/

/-- JSON values; objects are ordered key/value entry lists. -/
inductive Json where
  | str (s : String)
  | num (n : Int)
  | bool (b : Bool)
  | null
  | arr (elems : List Json)
  | obj (entries : List (String × Json))
  deriving Repr

/-- JS property assignment `o[k] = v` (also the semantics of `Map.set`):
when the key is already present its value is updated in place, keeping the
key's original position; otherwise the key is appended at the end. -/
def setKey {α : Type} : List (String × α) → String → α → List (String × α)
  | [], k, v => [(k, v)]
  | (k1, v1) :: rest, k, v =>
      if k1 = k then (k1, v) :: rest else (k1, v1) :: setKey rest k v

/-- JS property read `o[k]` on an entry list (first occurrence wins). -/
def lookupKey {α : Type} : List (String × α) → String → Option α
  | [], _ => none
  | (k1, v1) :: rest, k => if k1 = k then some v1 else lookupKey rest k

/-- JS object spread `{...init, ...l}`: fold the entries of `l` into `init`
by repeated property assignment. -/
def spreadInto (init l : List (String × Json)) : List (String × Json) :=
  l.foldl (fun acc kv => setKey acc kv.1 kv.2) init

/-- JS truthiness of an optional string property (`undefined` and the empty
string are falsy). -/
def truthyStr : Option String → Bool
  | none => false
  | some s => s ≠ ""

/-- One entry of a ZodString's `_def.checks` list as the converters read it:
only `check.kind` (`"min"` / `"max"` / anything else) and `check.value`. -/
inductive ZodCheck where
  | min (value : Int)
  | max (value : Int)
  | other

/-- The zod runtime schema values, as dispatched on via `_def.typeName`.
`description` models `_def.description` (`none` when absent), `checks` the
`_def.checks` list, `shape` the ordered `_def.shape()` entries, `values`
the `_def.values` list, `defaultValue` the result of `_def.defaultValue()`.
`unrecognized` stands for any `_def.typeName` outside the handled cases. -/
inductive ZodSchema where
  | ZodString (description : Option String) (checks : List ZodCheck)
  | ZodNumber (description : Option String)
  | ZodBoolean (description : Option String)
  | ZodEnum (description : Option String) (values : List String)
  | ZodArray (element : ZodSchema)
  | ZodUnion (options : List ZodSchema)
  | ZodDate
  | ZodDefault (innerType : ZodSchema) (defaultValue : Json)
  | ZodOptional (innerType : ZodSchema)
  | ZodObject (description : Option String) (shape : List (String × ZodSchema))
  | unrecognized

/-- A JS value as tested by the guard `!zodSchema || !zodSchema._def` at the
top of `convertZodToJsonSchema`: `jsNull` is `null`/`undefined` (falsy),
`raw` is an object without a `_def` property, `schema` is a zod value. -/
inductive ZodValue where
  | jsNull
  | raw
  | schema (s : ZodSchema)

/-- `isOptional` (src/zod-schema.ts): true iff `_def.typeName` is
`"ZodOptional"` or `"ZodDefault"`. -/
def isOptional : ZodSchema → Bool
  | .ZodOptional _ => true
  | .ZodDefault _ _ => true
  | _ => false

/-- The `description` entry attached by the string/number/boolean/enum
cases: present exactly when `_def.description` is truthy. -/
def descEntry : Option String → List (String × Json)
  | none => []
  | some s => if s = "" then [] else [("description", Json.str s)]

/-- One step of the `_def.checks.forEach` loop in the ZodString case:
a `"min"` check assigns `minLength`, a `"max"` check assigns `maxLength`,
any other check is ignored. -/
def applyCheck (acc : List (String × Json)) : ZodCheck → List (String × Json)
  | .min v => setKey acc "minLength" (Json.num v)
  | .max v => setKey acc "maxLength" (Json.num v)
  | .other => acc

mutual

/-- `convertZodToJsonSchema` (src/zod-schema.ts) on a value that has a
`_def`, dispatching on `_def.typeName`; the returned JS object is modeled
as its ordered entry list.  The ZodObject case builds `properties` by
converting each shape entry in declaration order and collects in `required`
the keys whose schema is not `isOptional`, exactly as the source's single
loop does. -/
def convertZod : ZodSchema → List (String × Json)
  | .ZodObject _ shape =>
      let required := (shape.filter (fun p => !isOptional p.2)).map Prod.fst
      [("type", Json.str "object"), ("properties", Json.obj (convertShape shape))]
        ++ (if required.isEmpty then []
            else [("required", Json.arr (required.map Json.str))])
        ++ [("additionalProperties", Json.bool false)]
  | .ZodString d checks =>
      checks.foldl applyCheck ([("type", Json.str "string")] ++ descEntry d)
  | .ZodNumber d => [("type", Json.str "number")] ++ descEntry d
  | .ZodBoolean d => [("type", Json.str "boolean")] ++ descEntry d
  | .ZodEnum d values =>
      [("type", Json.str "string"), ("enum", Json.arr (values.map Json.str))]
        ++ descEntry d
  | .ZodArray element =>
      [("type", Json.str "array"), ("items", Json.obj (convertZod element))]
  | .ZodUnion options => [("oneOf", Json.arr (convertOptions options))]
  | .ZodDate => [("type", Json.str "string"), ("format", Json.str "date-time")]
  | .ZodDefault innerType dv => setKey (convertZod innerType) "default" dv
  | .ZodOptional innerType => convertZod innerType
  | .unrecognized => [("type", Json.str "string")]

/-- The `for (const [key, value] of Object.entries(shape))` recursion of the
ZodObject case, building `properties` in declaration order. -/
def convertShape : List (String × ZodSchema) → List (String × Json)
  | [] => []
  | (k, s) :: rest => (k, Json.obj (convertZod s)) :: convertShape rest

/-- The `options.map((opt) => convertZodToJsonSchema(opt))` recursion of the
ZodUnion case. -/
def convertOptions : List ZodSchema → List Json
  | [] => []
  | s :: rest => Json.obj (convertZod s) :: convertOptions rest

end

/-- `convertZodToJsonSchema` (src/zod-schema.ts), total entry point: the
guard `if (!zodSchema || !zodSchema._def) return { type: "object" }`
covers the `jsNull` and `raw` cases. -/
def convertZodToJsonSchema : ZodValue → Json
  | .jsNull => Json.obj [("type", Json.str "object")]
  | .raw => Json.obj [("type", Json.str "object")]
  | .schema s => Json.obj (convertZod s)

/-- The `properties` built by `convertObjectToJsonSchema`'s loop: entries
failing the `value && value._def` guard are skipped. -/
def objProperties : List (String × ZodValue) → List (String × Json)
  | [] => []
  | (k, .schema s) :: rest => (k, Json.obj (convertZod s)) :: objProperties rest
  | (_, .jsNull) :: rest => objProperties rest
  | (_, .raw) :: rest => objProperties rest

/-- The `required` list built by `convertObjectToJsonSchema`'s loop. -/
def objRequired : List (String × ZodValue) → List String
  | [] => []
  | (k, .schema s) :: rest =>
      if isOptional s then objRequired rest else k :: objRequired rest
  | (_, .jsNull) :: rest => objRequired rest
  | (_, .raw) :: rest => objRequired rest

/-- `convertObjectToJsonSchema` (src/zod-schema.ts): converts a plain JS
object of zod validators, skipping entries without a `_def`. -/
def convertObjectToJsonSchema (obj : List (String × ZodValue)) : Json :=
  Json.obj
    ([("type", Json.str "object"), ("properties", Json.obj (objProperties obj))]
      ++ (if (objRequired obj).isEmpty then []
          else [("required", Json.arr ((objRequired obj).map Json.str))])
      ++ [("additionalProperties", Json.bool false)])

namespace FluentMCP

/-- `FluentMCP._isOptional` (src/server.ts): same test as the standalone
`isOptional`. -/
def _isOptional : ZodSchema → Bool
  | .ZodOptional _ => true
  | .ZodDefault _ _ => true
  | _ => false

mutual

/-- `FluentMCP._convertZodToJsonSchema` (src/server.ts) on a value that has
a `_def`.  Unlike the standalone converter in src/zod-schema.ts, its switch
has no ZodArray, ZodUnion or ZodDate cases, so those tags fall through to
the `default:` branch. -/
def _convertZod : ZodSchema → List (String × Json)
  | .ZodObject _ shape =>
      let required := (shape.filter (fun p => !_isOptional p.2)).map Prod.fst
      [("type", Json.str "object"), ("properties", Json.obj (_convertShape shape))]
        ++ (if required.isEmpty then []
            else [("required", Json.arr (required.map Json.str))])
        ++ [("additionalProperties", Json.bool false)]
  | .ZodString d checks =>
      checks.foldl applyCheck ([("type", Json.str "string")] ++ descEntry d)
  | .ZodNumber d => [("type", Json.str "number")] ++ descEntry d
  | .ZodBoolean d => [("type", Json.str "boolean")] ++ descEntry d
  | .ZodEnum d values =>
      [("type", Json.str "string"), ("enum", Json.arr (values.map Json.str))]
        ++ descEntry d
  | .ZodDefault innerType dv => setKey (_convertZod innerType) "default" dv
  | .ZodOptional innerType => _convertZod innerType
  | .ZodArray _ => [("type", Json.str "string")]
  | .ZodUnion _ => [("type", Json.str "string")]
  | .ZodDate => [("type", Json.str "string")]
  | .unrecognized => [("type", Json.str "string")]

/-- The shape loop of `FluentMCP._convertZodToJsonSchema`'s ZodObject
case. -/
def _convertShape : List (String × ZodSchema) → List (String × Json)
  | [] => []
  | (k, s) :: rest => (k, Json.obj (_convertZod s)) :: _convertShape rest

end

/-- The `properties` built by `FluentMCP._convertObjectToJsonSchema`'s
loop: entries failing `value && value._def` are skipped. -/
def _objProperties : List (String × ZodValue) → List (String × Json)
  | [] => []
  | (k, .schema s) :: rest => (k, Json.obj (_convertZod s)) :: _objProperties rest
  | (_, .jsNull) :: rest => _objProperties rest
  | (_, .raw) :: rest => _objProperties rest

/-- The `required` list built by `FluentMCP._convertObjectToJsonSchema`'s
loop. -/
def _objRequired : List (String × ZodValue) → List String
  | [] => []
  | (k, .schema s) :: rest =>
      if _isOptional s then _objRequired rest else k :: _objRequired rest
  | (_, .jsNull) :: rest => _objRequired rest
  | (_, .raw) :: rest => _objRequired rest

/-- `FluentMCP._convertObjectToJsonSchema` (src/server.ts). -/
def _convertObjectToJsonSchema (obj : List (String × ZodValue)) : Json :=
  Json.obj
    ([("type", Json.str "object"), ("properties", Json.obj (_objProperties obj))]
      ++ (if (_objRequired obj).isEmpty then []
          else [("required", Json.arr ((_objRequired obj).map Json.str))])
      ++ [("additionalProperties", Json.bool false)])

/-- One entry of `FluentMCP.toolRegistry`, as built by
`FluentMCP._extractToolInfo`. -/
structure ToolInfo where
  name : String
  description : String
  inputSchema : Json

/-- The `schema` argument of `FluentMCP.tool(name, schema, handler)` as the
guards of `_extractToolInfo` classify it: a zod value (an object with
`_def`), a plain object of values (no `_def`), `null`/`undefined`, or a
non-object value. -/
inductive SchemaArg where
  | zod (s : ZodSchema)
  | mapping (entries : List (String × ZodValue))
  | jsNull
  | nonObject

/-- `FluentMCP._extractToolInfo` (src/server.ts): the description is
`schema._def.description || ""` when the schema is a ZodObject and `""` in
every other case; the input schema is produced by the matching converter,
or stays the `{ type: "object" }` default when `schema` is not a
non-null object. -/
def _extractToolInfo (name : String) (schema : SchemaArg) : ToolInfo :=
  match schema with
  | .zod (.ZodObject d shape) =>
      { name := name, description := d.getD "",
        inputSchema := Json.obj (_convertZod (.ZodObject d shape)) }
  | .zod s =>
      { name := name, description := "", inputSchema := Json.obj (_convertZod s) }
  | .mapping entries =>
      { name := name, description := "",
        inputSchema := _convertObjectToJsonSchema entries }
  | .jsNull =>
      { name := name, description := "", inputSchema := Json.obj [("type", Json.str "object")] }
  | .nonObject =>
      { name := name, description := "", inputSchema := Json.obj [("type", Json.str "object")] }

/-- `FluentMCP.tool` (src/server.ts), restricted to its effect on
`toolRegistry`: `this.toolRegistry.set(name, this._extractToolInfo(name, schema))`,
with JS `Map.set` semantics given by `setKey`. -/
def tool (registry : List (String × ToolInfo)) (name : String) (schema : SchemaArg) :
    List (String × ToolInfo) :=
  setKey registry name (_extractToolInfo name schema)

/-- A whole setup phase: a sequence of `tool` registration calls applied to
the initially empty `toolRegistry`. -/
def registerAll (calls : List (String × SchemaArg)) : List (String × ToolInfo) :=
  calls.foldl (fun registry p => tool registry p.1 p.2) []

/-- JS `a || b` for a nullable string `a` (the empty string is falsy). -/
def jsOr : Option String → String → String
  | none, d => d
  | some s, d => if s = "" then d else s

/-- The own enumerable entries contributed by spreading a JSON value into
an object literal; the converters only ever store objects in
`inputSchema`. -/
def entriesOf : Json → List (String × Json)
  | .obj entries => entries
  | _ => []

/-- One element of the `tools` array built by the ListTools handler in
`FluentMCP._setupVersionedToolsList`: both the legacy fields
(`description`, `inputSchema`) and the modern `annotations` object, which
is the literal `{ description: toolInfo.description, ...toolInfo.inputSchema }`. -/
def toolPayload (toolName : String) (info : ToolInfo) : Json :=
  Json.obj
    [("name", Json.str toolName),
     ("description", Json.str info.description),
     ("inputSchema", info.inputSchema),
     ("annotations",
       Json.obj (spreadInto [("description", Json.str info.description)]
         (entriesOf info.inputSchema)))]

/-- The ListTools handler of `FluentMCP._setupVersionedToolsList`
(src/server.ts): it computes
`protocolVersion = this.negotiatedProtocolVersion || '2025-03-26'` but the
payload it builds never uses it; the registry is traversed in iteration
order and every entry contributes exactly one payload object. -/
def toolsListResponse (registry : List (String × ToolInfo))
    (negotiatedProtocolVersion : Option String) : List Json :=
  let _protocolVersion := jsOr negotiatedProtocolVersion "2025-03-26"
  registry.map (fun p => toolPayload p.1 p.2)

/-- The version stored by the `initialize` handler in
`FluentMCP._setupMcpVersioning` for a claimed client version:
`'2024-11-05'` iff the claim is exactly `'2024-11-05'`, else
`'2025-03-26'`. -/
def negotiate (clientVersion : Option String) : String :=
  if clientVersion = some "2024-11-05" then "2024-11-05" else "2025-03-26"

/-- The two kinds of incoming events that touch
`negotiatedProtocolVersion`: an `initialize` request (whose
`params?.protocolVersion` may be absent) and a `tools/list` query. -/
inductive SessionEvent where
  | handshake (protocolVersion : Option String)
  | toolsQuery

/-- Effect of one event on the stored `negotiatedProtocolVersion` (initially
`null`): the `initialize` handler assigns `negotiate`'s result on every
handshake; the `tools/list` handler only reads the field. -/
def stepState (st : Option String) : SessionEvent → Option String
  | .handshake v => some (negotiate v)
  | .toolsQuery => st

end FluentMCP

/-! Helper lemmas about the JS-object primitives. -/

theorem lookupKey_setKey_self {α : Type} (l : List (String × α)) (k : String) (v : α) :
    lookupKey (setKey l k v) k = some v := by
  induction l with
  | nil => simp [setKey, lookupKey]
  | cons hd tl ih =>
      obtain ⟨k1, v1⟩ := hd
      by_cases h : k1 = k
      · simp [setKey, h, lookupKey]
      · simp [setKey, h, lookupKey, ih]

theorem lookupKey_setKey_ne {α : Type} (l : List (String × α)) (k k1 : String) (v : α)
    (h : k1 ≠ k) : lookupKey (setKey l k v) k1 = lookupKey l k1 := by
  induction l with
  | nil => simp [setKey, lookupKey, Ne.symm h]
  | cons hd tl ih =>
      obtain ⟨k2, v2⟩ := hd
      by_cases h2 : k2 = k
      · subst h2
        simp [setKey, lookupKey, Ne.symm h]
      · by_cases h3 : k2 = k1
        · subst h3
          simp [setKey, h2, lookupKey]
        · simp [setKey, h2, lookupKey, h3, ih]

theorem keys_setKey {α : Type} (l : List (String × α)) (k : String) (v : α) :
    (setKey l k v).map Prod.fst
      = if k ∈ l.map Prod.fst then l.map Prod.fst else l.map Prod.fst ++ [k] := by
  induction l with
  | nil => simp [setKey]
  | cons hd tl ih =>
      obtain ⟨k1, v1⟩ := hd
      by_cases h : k1 = k
      · simp [setKey, h]
      · simp only [setKey, if_neg h, List.map_cons, ih]
        by_cases hm : k ∈ tl.map Prod.fst
        · simp [hm]
        · simp [hm, Ne.symm h]

theorem setKey_of_not_mem {α : Type} (l : List (String × α)) (k : String) (v : α)
    (h : k ∉ l.map Prod.fst) : setKey l k v = l ++ [(k, v)] := by
  induction l with
  | nil => simp [setKey]
  | cons hd tl ih =>
      obtain ⟨k1, v1⟩ := hd
      simp only [List.map_cons, List.mem_cons] at h
      push_neg at h
      simp [setKey, Ne.symm h.1, ih h.2]

theorem spreadInto_cons (init : List (String × Json)) (k : String) (v : Json)
    (rest : List (String × Json)) :
    spreadInto init ((k, v) :: rest) = spreadInto (setKey init k v) rest := rfl

theorem lookupKey_spreadInto_of_not_mem (l : List (String × Json)) :
    ∀ (init : List (String × Json)) (k : String), k ∉ l.map Prod.fst →
      lookupKey (spreadInto init l) k = lookupKey init k := by
  induction l with
  | nil => intro init k _; rfl
  | cons hd tl ih =>
      intro init k hk
      obtain ⟨k1, v1⟩ := hd
      simp only [List.map_cons, List.mem_cons] at hk
      push_neg at hk
      rw [spreadInto_cons, ih _ k hk.2, lookupKey_setKey_ne _ _ _ _ hk.1]

theorem lookupKey_spreadInto_of_mem (l : List (String × Json)) :
    ∀ (init : List (String × Json)) (k : String), (l.map Prod.fst).Nodup →
      k ∈ l.map Prod.fst →
      lookupKey (spreadInto init l) k = lookupKey l k := by
  induction l with
  | nil => intro init k _ hk; simp at hk
  | cons hd tl ih =>
      intro init k hnd hk
      obtain ⟨k1, v1⟩ := hd
      simp only [List.map_cons, List.nodup_cons] at hnd
      rcases List.mem_cons.mp hk with h1 | h2
      · subst h1
        rw [spreadInto_cons, lookupKey_spreadInto_of_not_mem _ _ _ hnd.1,
          lookupKey_setKey_self]
        simp [lookupKey]
      · have hne : k ≠ k1 := fun he => hnd.1 (he ▸ h2)
        rw [spreadInto_cons, ih _ k hnd.2 h2]
        simp [lookupKey, Ne.symm hne]

/-! Helper lemmas about the ZodString checks loop. -/

/-- The value retained for `minLength` by the `forEach` loop: the value of
the last `"min"` check in the list, if any. -/
def lastMinCheck (checks : List ZodCheck) : Option Int :=
  checks.foldl (fun acc c => match c with | .min v => some v | _ => acc) none

/-- The value retained for `maxLength` by the `forEach` loop: the value of
the last `"max"` check in the list, if any. -/
def lastMaxCheck (checks : List ZodCheck) : Option Int :=
  checks.foldl (fun acc c => match c with | .max v => some v | _ => acc) none

theorem lookupKey_foldl_applyCheck (cs : List ZodCheck) :
    ∀ (l : List (String × Json)) (k : String),
      k ≠ "minLength" → k ≠ "maxLength" →
      lookupKey (cs.foldl applyCheck l) k = lookupKey l k := by
  induction cs with
  | nil => intro l k _ _; rfl
  | cons c rest ih =>
      intro l k hmin hmax
      cases c with
      | min v => rw [List.foldl_cons, ih _ k hmin hmax]
                 exact lookupKey_setKey_ne _ _ _ _ hmin
      | max v => rw [List.foldl_cons, ih _ k hmin hmax]
                 exact lookupKey_setKey_ne _ _ _ _ hmax
      | other => exact ih l k hmin hmax

theorem lookupKey_foldl_applyCheck_min (cs : List ZodCheck) :
    ∀ (l : List (String × Json)) (a : Option Int),
      lookupKey l "minLength" = a.map Json.num →
      lookupKey (cs.foldl applyCheck l) "minLength"
        = (cs.foldl (fun acc c => match c with | .min v => some v | _ => acc) a).map Json.num := by
  induction cs with
  | nil => intro l a h; simpa using h
  | cons c rest ih =>
      intro l a h
      cases c with
      | min v =>
          refine ih _ (some v) ?_
          simpa [applyCheck] using lookupKey_setKey_self l "minLength" (Json.num v)
      | max v =>
          refine ih _ a ?_
          simp only [applyCheck]
          rw [lookupKey_setKey_ne _ _ _ _ (by decide : "minLength" ≠ "maxLength")]
          exact h
      | other => exact ih l a h

theorem lookupKey_foldl_applyCheck_max (cs : List ZodCheck) :
    ∀ (l : List (String × Json)) (a : Option Int),
      lookupKey l "maxLength" = a.map Json.num →
      lookupKey (cs.foldl applyCheck l) "maxLength"
        = (cs.foldl (fun acc c => match c with | .max v => some v | _ => acc) a).map Json.num := by
  induction cs with
  | nil => intro l a h; simpa using h
  | cons c rest ih =>
      intro l a h
      cases c with
      | max v =>
          refine ih _ (some v) ?_
          simpa [applyCheck] using lookupKey_setKey_self l "maxLength" (Json.num v)
      | min v =>
          refine ih _ a ?_
          simp only [applyCheck]
          rw [lookupKey_setKey_ne _ _ _ _ (by decide : "maxLength" ≠ "minLength")]
          exact h
      | other => exact ih l a h

/-- Keys of the object literal the ZodString case starts from. -/
theorem lookupKey_string_base (d : Option String) (k : String) (hk : k ≠ "type")
    (hd : k ≠ "description") :
    lookupKey ([("type", Json.str "string")] ++ descEntry d) k = none := by
  cases d with
  | none => simp [descEntry, lookupKey, Ne.symm hk]
  | some s =>
      by_cases hs : s = "" <;>
        simp [descEntry, hs, lookupKey, Ne.symm hk, Ne.symm hd]

/-! Structural lemmas about the object conversions and the registry. -/

theorem convertShape_eq_map (shape : List (String × ZodSchema)) :
    convertShape shape = shape.map (fun p => (p.1, Json.obj (convertZod p.2))) := by
  induction shape with
  | nil => rfl
  | cons hd tl ih =>
      obtain ⟨k, s⟩ := hd
      simp [convertShape, ih]

theorem objProperties_schemas (m : List (String × ZodSchema)) :
    objProperties (m.map (fun p => (p.1, ZodValue.schema p.2)))
      = m.map (fun p => (p.1, Json.obj (convertZod p.2))) := by
  induction m with
  | nil => rfl
  | cons hd tl ih =>
      obtain ⟨k, s⟩ := hd
      simp [objProperties, ih]

theorem objRequired_schemas (m : List (String × ZodSchema)) :
    objRequired (m.map (fun p => (p.1, ZodValue.schema p.2)))
      = (m.filter (fun p => !isOptional p.2)).map Prod.fst := by
  induction m with
  | nil => rfl
  | cons hd tl ih =>
      obtain ⟨k, s⟩ := hd
      by_cases h : isOptional s
      · simp [objRequired, h, ih, List.filter_cons]
      · simp [objRequired, h, ih, List.filter_cons]

theorem mem_keys_unique {α : Type} {l : List (String × α)}
    (hnd : (l.map Prod.fst).Nodup) {k : String} {a b : α}
    (ha : (k, a) ∈ l) (hb : (k, b) ∈ l) : a = b := by
  induction l with
  | nil => simp at ha
  | cons hd tl ih =>
      simp only [List.map_cons, List.nodup_cons] at hnd
      rcases List.mem_cons.mp ha with ha1 | ha2
      · rcases List.mem_cons.mp hb with hb1 | hb2
        · rw [← ha1] at hb1
          exact (Prod.mk.injEq _ _ _ _ |>.mp hb1.symm).2
        · exfalso
          apply hnd.1
          rw [← ha1]
          exact List.mem_map.mpr ⟨(k, b), hb2, rfl⟩
      · rcases List.mem_cons.mp hb with hb1 | hb2
        · exfalso
          apply hnd.1
          rw [← hb1]
          exact List.mem_map.mpr ⟨(k, a), ha2, rfl⟩
        · exact ih hnd.2 ha2 hb2

theorem mem_filteredKeys_iff {shape : List (String × ZodSchema)}
    (hnd : (shape.map Prod.fst).Nodup) {k : String} {s : ZodSchema}
    (hmem : (k, s) ∈ shape) :
    k ∈ (shape.filter (fun p => !isOptional p.2)).map Prod.fst ↔ isOptional s = false := by
  constructor
  · intro hk
    rcases List.mem_map.mp hk with ⟨⟨k2, s2⟩, hin, hfst⟩
    rcases List.mem_filter.mp hin with ⟨hin2, hopt⟩
    cases hfst
    have : s2 = s := mem_keys_unique hnd hin2 hmem
    subst this
    simpa using hopt
  · intro hopt
    refine List.mem_map.mpr ⟨(k, s), List.mem_filter.mpr ⟨hmem, ?_⟩, rfl⟩
    simp [hopt]

theorem tool_of_not_mem (registry : List (String × FluentMCP.ToolInfo))
    (name : String) (schema : FluentMCP.SchemaArg)
    (h : name ∉ registry.map Prod.fst) :
    FluentMCP.tool registry name schema
      = registry ++ [(name, FluentMCP._extractToolInfo name schema)] :=
  setKey_of_not_mem registry name _ h

theorem foldl_tool_append (calls : List (String × FluentMCP.SchemaArg)) :
    ∀ acc : List (String × FluentMCP.ToolInfo),
      (∀ c ∈ calls.map Prod.fst, c ∉ acc.map Prod.fst) →
      (calls.map Prod.fst).Nodup →
      calls.foldl (fun registry p => FluentMCP.tool registry p.1 p.2) acc
        = acc ++ calls.map (fun p => (p.1, FluentMCP._extractToolInfo p.1 p.2)) := by
  induction calls with
  | nil => intro acc _ _; simp
  | cons c rest ih =>
      intro acc hdisj hnd
      obtain ⟨name, schema⟩ := c
      simp only [List.map_cons, List.nodup_cons] at hnd
      rw [List.foldl_cons,
        tool_of_not_mem acc name schema (hdisj name (by simp)),
        ih _ ?_ hnd.2]
      · simp
      · intro c2 hc2
        simp only [List.map_append, List.mem_append]
        push_neg
        constructor
        · exact hdisj c2 (by simp [hc2])
        · simp only [List.map_cons, List.map_nil, List.mem_singleton]
          intro he
          exact hnd.1 (he ▸ hc2)

theorem _convertShape_eq_map (shape : List (String × ZodSchema)) :
    FluentMCP._convertShape shape
      = shape.map (fun p => (p.1, Json.obj (FluentMCP._convertZod p.2))) := by
  induction shape with
  | nil => rfl
  | cons hd tl ih =>
      obtain ⟨k, s⟩ := hd
      simp [FluentMCP._convertShape, ih]

/-- Tag test used to state which schemas take the ZodObject branch of
`FluentMCP._extractToolInfo`. -/
def isZodObjectTag : ZodSchema → Bool
  | .ZodObject _ _ => true
  | _ => false

/-! Claim theorems. -/

/-- C1 (amended): the standalone `convertZodToJsonSchema` converts an array
schema to `{type:"array", items: describe(elementSchema)}` with `items`
exactly the independently computed description of the element schema, but
the converter that produces the `inputSchema` stored in the tool registry
(`FluentMCP._convertZodToJsonSchema`) has no ZodArray case and returns the
`{type:"string"}` fallback on every array schema. -/
theorem convertZod_array_items (element : ZodSchema) :
    convertZod (.ZodArray element)
        = [("type", Json.str "array"), ("items", Json.obj (convertZod element))]
    ∧ FluentMCP._convertZod (.ZodArray element) = [("type", Json.str "string")] :=
  ⟨rfl, rfl⟩

/-- C1 counterexample: registering a tool whose schema is an array of
strings stores `{type:"string"}` as `inputSchema`, not the claimed
`{type:"array", items:{type:"string"}}`. -/
theorem convertZod_array_items_counterexample :
    (FluentMCP._extractToolInfo "listTags"
        (.zod (.ZodArray (.ZodString none [])))).inputSchema
      = Json.obj [("type", Json.str "string")]
    ∧ ¬ ((FluentMCP._extractToolInfo "listTags"
        (.zod (.ZodArray (.ZodString none [])))).inputSchema
      = Json.obj [("type", Json.str "array"),
          ("items", Json.obj [("type", Json.str "string")])]) := by
  refine ⟨rfl, ?_⟩
  intro h
  rw [show (FluentMCP._extractToolInfo "listTags"
      (.zod (.ZodArray (.ZodString none [])))).inputSchema
    = Json.obj [("type", Json.str "string")] from rfl] at h
  simp at h

/-- C2: the tools-list payload does not depend on the negotiated revision;
it maps every registry entry, in registry order and without dropping or
deduplicating, to one object carrying the legacy fields (`description`,
`inputSchema`) and a modern `annotations` object built as
`{description, ...inputSchema}`; a spread key of `inputSchema` is readable
at the top of `annotations`, and `annotations.description` is the entry's
description whenever `inputSchema` has no own `description` key. -/
theorem toolsList_dual_format (registry : List (String × FluentMCP.ToolInfo))
    (v1 v2 : Option String) :
    FluentMCP.toolsListResponse registry v1 = FluentMCP.toolsListResponse registry v2
    ∧ FluentMCP.toolsListResponse registry v1
        = registry.map (fun p => Json.obj
            [("name", Json.str p.1),
             ("description", Json.str p.2.description),
             ("inputSchema", p.2.inputSchema),
             ("annotations", Json.obj (spreadInto
               [("description", Json.str p.2.description)]
               (FluentMCP.entriesOf p.2.inputSchema)))])
    ∧ (FluentMCP.toolsListResponse registry v1).length = registry.length
    ∧ (∀ (dsc : String) (entries : List (String × Json)) (k : String),
        (entries.map Prod.fst).Nodup → k ∈ entries.map Prod.fst →
        lookupKey (spreadInto [("description", Json.str dsc)] entries) k
          = lookupKey entries k)
    ∧ (∀ (dsc : String) (entries : List (String × Json)),
        "description" ∉ entries.map Prod.fst →
        lookupKey (spreadInto [("description", Json.str dsc)] entries) "description"
          = some (Json.str dsc)) := by
  refine ⟨rfl, rfl, by simp [FluentMCP.toolsListResponse], ?_, ?_⟩
  · intro dsc entries k hnd hk
    exact lookupKey_spreadInto_of_mem entries _ k hnd hk
  · intro dsc entries h
    rw [lookupKey_spreadInto_of_not_mem entries _ "description" h]
    simp [lookupKey]

/-- C2 witness: a one-tool registry produces the same payload under both
negotiated revisions, and the spread/lookup facts hold at concrete
inputs. -/
theorem toolsList_dual_format_witness :
    FluentMCP.toolsListResponse
        [("echo", ⟨"echo", "Echoes input", Json.obj [("type", Json.str "object")]⟩)] none
      = FluentMCP.toolsListResponse
        [("echo", ⟨"echo", "Echoes input", Json.obj [("type", Json.str "object")]⟩)]
        (some "2024-11-05")
    ∧ lookupKey (spreadInto [("description", Json.str "Echoes input")]
        [("type", Json.str "object")]) "type" = lookupKey [("type", Json.str "object")] "type"
    ∧ lookupKey (spreadInto [("description", Json.str "Echoes input")]
        [("type", Json.str "object")]) "description" = some (Json.str "Echoes input") := by
  have h := toolsList_dual_format
    [("echo", ⟨"echo", "Echoes input", Json.obj [("type", Json.str "object")]⟩)]
    none (some "2024-11-05")
  refine ⟨h.1, ?_, ?_⟩
  · exact h.2.2.2.1 "Echoes input" [("type", Json.str "object")] "type"
      (by simp) (by simp)
  · exact h.2.2.2.2 "Echoes input" [("type", Json.str "object")]
      (by simp)

/-- C3 (amended): for a string schema the converter emits
`{type:"string"}`; `minLength` carries the value of the LAST
minimum-length check in `_def.checks` and `maxLength` the value of the
LAST maximum-length check (the `forEach` loop overwrites on every match,
so when a kind of check is duplicated the last one wins, not the first);
both are present together when both kinds occur, and a truthy description
is preserved verbatim.  The registry-path copy behaves identically. -/
theorem string_length_checks (d : Option String) (checks : List ZodCheck) :
    lookupKey (convertZod (.ZodString d checks)) "type" = some (Json.str "string")
    ∧ lookupKey (convertZod (.ZodString d checks)) "minLength"
        = (lastMinCheck checks).map Json.num
    ∧ lookupKey (convertZod (.ZodString d checks)) "maxLength"
        = (lastMaxCheck checks).map Json.num
    ∧ (∀ s : String, d = some s → s ≠ "" →
        lookupKey (convertZod (.ZodString d checks)) "description" = some (Json.str s))
    ∧ FluentMCP._convertZod (.ZodString d checks) = convertZod (.ZodString d checks) := by
  refine ⟨?_, ?_, ?_, ?_, rfl⟩
  · rw [show convertZod (.ZodString d checks)
        = checks.foldl applyCheck ([("type", Json.str "string")] ++ descEntry d) from rfl,
      lookupKey_foldl_applyCheck checks _ "type" (by decide) (by decide)]
    simp [lookupKey]
  · exact lookupKey_foldl_applyCheck_min checks _ none
      (lookupKey_string_base d "minLength" (by decide) (by decide))
  · exact lookupKey_foldl_applyCheck_max checks _ none
      (lookupKey_string_base d "maxLength" (by decide) (by decide))
  · intro s hs hne
    subst hs
    rw [show convertZod (.ZodString (some s) checks)
        = checks.foldl applyCheck ([("type", Json.str "string")] ++ descEntry (some s)) from rfl,
      lookupKey_foldl_applyCheck checks _ "description" (by decide) (by decide)]
    simp [descEntry, hne, lookupKey]

/-- C3 witness: `string().min(3).max(10).describe("short name")` yields
type "string", description "short name", minLength 3 and maxLength 10. -/
theorem string_length_checks_witness :
    lookupKey (convertZod (.ZodString (some "short name") [.min 3, .max 10])) "minLength"
      = some (Json.num 3)
    ∧ lookupKey (convertZod (.ZodString (some "short name") [.min 3, .max 10])) "maxLength"
      = some (Json.num 10)
    ∧ lookupKey (convertZod (.ZodString (some "short name") [.min 3, .max 10])) "description"
      = some (Json.str "short name") := by
  have h := string_length_checks (some "short name") [.min 3, .max 10]
  exact ⟨by rw [h.2.1]; rfl, by rw [h.2.2.1]; rfl,
    h.2.2.2.1 "short name" rfl (by decide)⟩

/-- C3 counterexample: with a duplicated minimum-length check
`[min 3, min 5]` the emitted `minLength` is 5 — the last match — so the
claimed first-match-wins rule is false. -/
theorem string_length_checks_counterexample :
    lookupKey (convertZod (.ZodString none [.min 3, .min 5])) "minLength"
      = some (Json.num 5)
    ∧ ¬ ((some (Json.num 5) : Option Json) = some (Json.num 3)) := by
  refine ⟨rfl, ?_⟩
  intro h
  simp at h

/-- C4: the introspector is total and never throws; `null`/absent input and
objects without a recognizable `_def` tag degrade to `{type:"object"}`
(also at the registration boundary, where `_extractToolInfo` keeps the
`{type:"object"}` default for null or non-object schema arguments), while
a tagged schema whose tag is unrecognized degrades to `{type:"string"}`,
and the two degrade defaults differ. -/
theorem describe_total_degrade_defaults :
    convertZodToJsonSchema .jsNull = Json.obj [("type", Json.str "object")]
    ∧ convertZodToJsonSchema .raw = Json.obj [("type", Json.str "object")]
    ∧ convertZodToJsonSchema (.schema .unrecognized) = Json.obj [("type", Json.str "string")]
    ∧ ¬ (Json.obj [("type", Json.str "object")] = Json.obj [("type", Json.str "string")])
    ∧ (∀ n : String, (FluentMCP._extractToolInfo n .jsNull).inputSchema
        = Json.obj [("type", Json.str "object")])
    ∧ (∀ n : String, (FluentMCP._extractToolInfo n .nonObject).inputSchema
        = Json.obj [("type", Json.str "object")])
    ∧ FluentMCP._convertZod .unrecognized = [("type", Json.str "string")] := by
  refine ⟨rfl, rfl, rfl, ?_, fun n => rfl, fun n => rfl, rfl⟩
  intro h
  simp at h

/-- C5: an object schema (and a plain mapping of named schema values via
the second entry point) is described by recursing into each named child in
declaration order; a child's name is in `required` iff its schema is not
an optional- or default-wrapper; `additionalProperties` is always `false`;
`required` is omitted when empty, and the zero-property object still emits
`{type:"object", properties:{}, additionalProperties:false}`.  The
registry-path ZodObject case has the same structure. -/
theorem object_conversion_properties (d : Option String)
    (shape m : List (String × ZodSchema)) :
    convertZod (.ZodObject d shape)
        = [("type", Json.str "object"),
           ("properties", Json.obj (shape.map (fun p => (p.1, Json.obj (convertZod p.2)))))]
          ++ (if ((shape.filter (fun p => !isOptional p.2)).map Prod.fst).isEmpty then []
              else [("required", Json.arr
                (((shape.filter (fun p => !isOptional p.2)).map Prod.fst).map Json.str))])
          ++ [("additionalProperties", Json.bool false)]
    ∧ (∀ (k : String) (s : ZodSchema), (k, s) ∈ shape → (shape.map Prod.fst).Nodup →
        (k ∈ (shape.filter (fun p => !isOptional p.2)).map Prod.fst
          ↔ isOptional s = false))
    ∧ (∀ s : ZodSchema, isOptional s = true
        ↔ ((∃ i, s = .ZodOptional i) ∨ (∃ i dv, s = .ZodDefault i dv)))
    ∧ convertObjectToJsonSchema (m.map (fun p => (p.1, ZodValue.schema p.2)))
        = Json.obj
            ([("type", Json.str "object"),
              ("properties", Json.obj (m.map (fun p => (p.1, Json.obj (convertZod p.2)))))]
              ++ (if ((m.filter (fun p => !isOptional p.2)).map Prod.fst).isEmpty then []
                  else [("required", Json.arr
                    (((m.filter (fun p => !isOptional p.2)).map Prod.fst).map Json.str))])
              ++ [("additionalProperties", Json.bool false)])
    ∧ convertZod (.ZodObject d [])
        = [("type", Json.str "object"), ("properties", Json.obj []),
           ("additionalProperties", Json.bool false)]
    ∧ FluentMCP._convertZod (.ZodObject d shape)
        = [("type", Json.str "object"),
           ("properties", Json.obj (shape.map (fun p =>
             (p.1, Json.obj (FluentMCP._convertZod p.2)))))]
          ++ (if ((shape.filter (fun p => !FluentMCP._isOptional p.2)).map Prod.fst).isEmpty
              then []
              else [("required", Json.arr
                (((shape.filter (fun p => !FluentMCP._isOptional p.2)).map Prod.fst).map
                  Json.str))])
          ++ [("additionalProperties", Json.bool false)] := by
  refine ⟨?_, ?_, ?_, ?_, rfl, ?_⟩
  · rw [show convertZod (.ZodObject d shape)
        = (let required := (shape.filter (fun p => !isOptional p.2)).map Prod.fst
           [("type", Json.str "object"), ("properties", Json.obj (convertShape shape))]
             ++ (if required.isEmpty then []
                 else [("required", Json.arr (required.map Json.str))])
             ++ [("additionalProperties", Json.bool false)]) from rfl,
      convertShape_eq_map]
  · intro k s hmem hnd
    exact mem_filteredKeys_iff hnd hmem
  · intro s
    cases s <;> simp [isOptional]
  · rw [show convertObjectToJsonSchema (m.map (fun p => (p.1, ZodValue.schema p.2)))
        = Json.obj
            ([("type", Json.str "object"),
              ("properties", Json.obj (objProperties (m.map (fun p => (p.1, ZodValue.schema p.2)))))]
              ++ (if (objRequired (m.map (fun p => (p.1, ZodValue.schema p.2)))).isEmpty then []
                  else [("required", Json.arr
                    ((objRequired (m.map (fun p => (p.1, ZodValue.schema p.2)))).map Json.str))])
              ++ [("additionalProperties", Json.bool false)]) from rfl,
      objProperties_schemas, objRequired_schemas]
  · rw [show FluentMCP._convertZod (.ZodObject d shape)
        = (let required := (shape.filter (fun p => !FluentMCP._isOptional p.2)).map Prod.fst
           [("type", Json.str "object"),
            ("properties", Json.obj (FluentMCP._convertShape shape))]
             ++ (if required.isEmpty then []
                 else [("required", Json.arr (required.map Json.str))])
             ++ [("additionalProperties", Json.bool false)]) from rfl,
      _convertShape_eq_map]

/-- C5 witness: the end-to-end scenario `{title: string, tags: optional
array of string}` — `title` is required, `tags` is not, and the empty
object emits no `required` key. -/
theorem object_conversion_properties_witness :
    "title" ∈ (([("title", ZodSchema.ZodString none []),
        ("tags", ZodSchema.ZodOptional (.ZodArray (.ZodString none [])))].filter
          (fun p => !isOptional p.2)).map Prod.fst)
    ∧ ¬ "tags" ∈ (([("title", ZodSchema.ZodString none []),
        ("tags", ZodSchema.ZodOptional (.ZodArray (.ZodString none [])))].filter
          (fun p => !isOptional p.2)).map Prod.fst)
    ∧ convertZod (.ZodObject none [])
        = [("type", Json.str "object"), ("properties", Json.obj []),
           ("additionalProperties", Json.bool false)] := by
  have h := object_conversion_properties none
    [("title", ZodSchema.ZodString none []),
     ("tags", ZodSchema.ZodOptional (.ZodArray (.ZodString none [])))] []
  refine ⟨?_, ?_, h.2.2.2.2.1⟩
  · exact (h.2.1 "title" (.ZodString none [])
      (List.mem_cons_self _ _) (by decide)).mpr rfl
  · intro hmem
    have := (h.2.1 "tags" (.ZodOptional (.ZodArray (.ZodString none [])))
      (by simp) (by decide)).mp hmem
    simp [isOptional] at this

/-- C6: a handshake negotiates the legacy revision `"2024-11-05"` iff the
client's claimed revision string is exactly that token, and the modern
revision `"2025-03-26"` for any other claim (including an absent one); a
tools-list query before any handshake is answered with the same payload as
under a negotiated modern revision, without an error and without changing
the stored state, the handler's internal default being the modern
token. -/
theorem protocol_negotiation (st claim : Option String)
    (registry : List (String × FluentMCP.ToolInfo)) :
    (FluentMCP.stepState st (.handshake claim) = some "2024-11-05"
      ↔ claim = some "2024-11-05")
    ∧ (claim ≠ some "2024-11-05" →
        FluentMCP.stepState st (.handshake claim) = some "2025-03-26")
    ∧ FluentMCP.toolsListResponse registry none
        = FluentMCP.toolsListResponse registry (some "2025-03-26")
    ∧ FluentMCP.stepState st .toolsQuery = st
    ∧ FluentMCP.jsOr none "2025-03-26" = "2025-03-26" := by
  refine ⟨?_, ?_, rfl, rfl, rfl⟩
  · constructor
    · intro h
      by_contra hne
      rw [show FluentMCP.stepState st (.handshake claim)
          = some (FluentMCP.negotiate claim) from rfl] at h
      rw [FluentMCP.negotiate, if_neg hne] at h
      simp at h
    · intro h
      rw [show FluentMCP.stepState st (.handshake claim)
          = some (FluentMCP.negotiate claim) from rfl, FluentMCP.negotiate, if_pos h]
  · intro h
    rw [show FluentMCP.stepState st (.handshake claim)
        = some (FluentMCP.negotiate claim) from rfl, FluentMCP.negotiate, if_neg h]

/-- C6 witness: an unknown future token (and a stored legacy state) still
negotiates to the modern revision. -/
theorem protocol_negotiation_witness :
    FluentMCP.stepState (some "2024-11-05") (.handshake (some "2099-01-01"))
      = some "2025-03-26"
    ∧ FluentMCP.toolsListResponse [] none = FluentMCP.toolsListResponse [] (some "2025-03-26") := by
  have h := protocol_negotiation (some "2024-11-05") (some "2099-01-01") []
  exact ⟨h.2.1 (by decide), h.2.2.1⟩

/-- C7: describing a default-wrapper yields the wrapped schema's
description overlaid with a `default` entry holding the wrapper's declared
default value; every other key is untouched, and the outer wrapper's
default wins, in particular over a default the wrapped schema already
carries (nested default-wrappers keep the outer value).  The registry-path
copy uses the same overlay. -/
theorem default_wrapper_overlay (innerType : ZodSchema) (dv : Json) :
    convertZod (.ZodDefault innerType dv) = setKey (convertZod innerType) "default" dv
    ∧ lookupKey (convertZod (.ZodDefault innerType dv)) "default" = some dv
    ∧ (∀ k : String, k ≠ "default" →
        lookupKey (convertZod (.ZodDefault innerType dv)) k
          = lookupKey (convertZod innerType) k)
    ∧ (∀ (s : ZodSchema) (d1 d2 : Json),
        lookupKey (convertZod (.ZodDefault (.ZodDefault s d1) d2)) "default" = some d2)
    ∧ FluentMCP._convertZod (.ZodDefault innerType dv)
        = setKey (FluentMCP._convertZod innerType) "default" dv := by
  refine ⟨rfl, lookupKey_setKey_self _ _ _, ?_, ?_, rfl⟩
  · intro k hk
    exact lookupKey_setKey_ne _ _ _ _ hk
  · intro s d1 d2
    exact lookupKey_setKey_self _ _ _

/-- C7 witness: `string().default("user")` — the non-default keys of the
wrapped schema are preserved and `default` carries the wrapper's value. -/
theorem default_wrapper_overlay_witness :
    lookupKey (convertZod (.ZodDefault (.ZodString none []) (Json.str "user"))) "type"
      = lookupKey (convertZod (.ZodString none [])) "type"
    ∧ lookupKey (convertZod (.ZodDefault (.ZodString none []) (Json.str "user"))) "default"
      = some (Json.str "user") := by
  have h := default_wrapper_overlay (.ZodString none []) (Json.str "user")
  exact ⟨h.2.2.1 "type" (by decide), h.2.1⟩

/-- C8 (amended): the `initialize` handler re-runs negotiation on every
handshake, overwriting the stored revision: after any handshake the stored
value is exactly the negotiation of that handshake's claimed token,
independent of whatever was stored before — so a second handshake carrying
a different token does change the stored revision (there is no
once-negotiated-forever guarantee in the code). -/
theorem renegotiation_overwrites (st st2 claim : Option String) :
    FluentMCP.stepState st (.handshake claim) = some (FluentMCP.negotiate claim)
    ∧ FluentMCP.stepState st (.handshake claim)
        = FluentMCP.stepState st2 (.handshake claim) :=
  ⟨rfl, rfl⟩

/-- C8 counterexample: a connection already negotiated to the legacy
revision that receives a second handshake claiming the modern token ends
with the modern revision stored — the stored revision changed. -/
theorem renegotiation_counterexample :
    FluentMCP.stepState (some "2024-11-05") (.handshake (some "2025-03-26"))
      = some "2025-03-26"
    ∧ ¬ ((some "2025-03-26" : Option String) = some "2024-11-05") := by
  refine ⟨rfl, ?_⟩
  intro h
  simp at h

/-- C9: registering a fresh sequence of tools with pairwise-distinct names
yields a registry whose entries are exactly the registrations in
first-registration order; re-registering an existing name keeps the key
sequence (hence the entry's position) unchanged while storing the new
metadata, and no key is ever removed by a registration. -/
theorem registry_order_and_replacement (calls : List (String × FluentMCP.SchemaArg))
    (hnd : (calls.map Prod.fst).Nodup)
    (m : List (String × FluentMCP.ToolInfo)) (name : String)
    (schema : FluentMCP.SchemaArg) :
    FluentMCP.registerAll calls
        = calls.map (fun p => (p.1, FluentMCP._extractToolInfo p.1 p.2))
    ∧ (name ∈ m.map Prod.fst →
        (FluentMCP.tool m name schema).map Prod.fst = m.map Prod.fst)
    ∧ lookupKey (FluentMCP.tool m name schema) name
        = some (FluentMCP._extractToolInfo name schema)
    ∧ (∀ k2, k2 ∈ m.map Prod.fst → k2 ∈ (FluentMCP.tool m name schema).map Prod.fst) := by
  refine ⟨?_, ?_, lookupKey_setKey_self _ _ _, ?_⟩
  · rw [show FluentMCP.registerAll calls
        = calls.foldl (fun registry p => FluentMCP.tool registry p.1 p.2) [] from rfl,
      foldl_tool_append calls [] (by simp) hnd]
    simp
  · intro hmem
    rw [show FluentMCP.tool m name schema
        = setKey m name (FluentMCP._extractToolInfo name schema) from rfl,
      keys_setKey, if_pos hmem]
  · intro k2 hk2
    rw [show FluentMCP.tool m name schema
        = setKey m name (FluentMCP._extractToolInfo name schema) from rfl,
      keys_setKey]
    by_cases hm : name ∈ m.map Prod.fst
    · rwa [if_pos hm]
    · rw [if_neg hm]
      exact List.mem_append_left _ hk2

/-- C9 witness: two distinct registrations enumerate in order, and
re-registering the first name keeps the key order while replacing the
stored metadata. -/
theorem registry_order_and_replacement_witness :
    FluentMCP.registerAll [("a", FluentMCP.SchemaArg.jsNull), ("b", FluentMCP.SchemaArg.jsNull)]
        = [("a", FluentMCP._extractToolInfo "a" FluentMCP.SchemaArg.jsNull),
           ("b", FluentMCP._extractToolInfo "b" FluentMCP.SchemaArg.jsNull)]
    ∧ (FluentMCP.tool
          [("a", FluentMCP._extractToolInfo "a" FluentMCP.SchemaArg.jsNull),
           ("b", FluentMCP._extractToolInfo "b" FluentMCP.SchemaArg.jsNull)]
          "a" FluentMCP.SchemaArg.nonObject).map Prod.fst = ["a", "b"]
    ∧ lookupKey (FluentMCP.tool
          [("a", FluentMCP._extractToolInfo "a" FluentMCP.SchemaArg.jsNull),
           ("b", FluentMCP._extractToolInfo "b" FluentMCP.SchemaArg.jsNull)]
          "a" FluentMCP.SchemaArg.nonObject) "a"
        = some (FluentMCP._extractToolInfo "a" FluentMCP.SchemaArg.nonObject) := by
  have h := registry_order_and_replacement
    [("a", FluentMCP.SchemaArg.jsNull), ("b", FluentMCP.SchemaArg.jsNull)]
    (by decide)
    [("a", FluentMCP._extractToolInfo "a" FluentMCP.SchemaArg.jsNull),
     ("b", FluentMCP._extractToolInfo "b" FluentMCP.SchemaArg.jsNull)]
    "a" FluentMCP.SchemaArg.nonObject
  refine ⟨by rw [h.1]; rfl, ?_, h.2.2.1⟩
  rw [h.2.1 (by simp)]
  rfl

/-- C10: the human description stored at registration is extracted from
the schema argument itself: it is `_def.description || ""` when the
argument is a ZodObject composite schema, and the empty string for a plain
mapping of named validators, for any non-object-tagged zod value, and for
null or non-object arguments — so a plain-mapping registration always
stores an empty description in the registry. -/
theorem tool_description_extraction (n : String) (d : Option String)
    (shape : List (String × ZodSchema)) (mp : List (String × ZodValue))
    (s : ZodSchema) (reg : List (String × FluentMCP.ToolInfo)) :
    (FluentMCP._extractToolInfo n (.zod (.ZodObject d shape))).description = d.getD ""
    ∧ (FluentMCP._extractToolInfo n (.mapping mp)).description = ""
    ∧ (isZodObjectTag s = false →
        (FluentMCP._extractToolInfo n (.zod s)).description = "")
    ∧ (FluentMCP._extractToolInfo n .jsNull).description = ""
    ∧ (lookupKey (FluentMCP.tool reg n (.mapping mp)) n).map FluentMCP.ToolInfo.description
        = some "" := by
  refine ⟨rfl, rfl, ?_, rfl, ?_⟩
  · intro h
    cases s <;> first
      | rfl
      | simp [isZodObjectTag] at h
  · rw [show FluentMCP.tool reg n (.mapping mp)
        = setKey reg n (FluentMCP._extractToolInfo n (.mapping mp)) from rfl,
      lookupKey_setKey_self]
    rfl

/-- C10 witness: a non-object zod schema that does carry a description
still stores the empty string, and a plain-mapping registration stores an
empty description in the registry. -/
theorem tool_description_extraction_witness :
    (FluentMCP._extractToolInfo "t" (.zod (.ZodString (some "has text") []))).description = ""
    ∧ (lookupKey (FluentMCP.tool [] "t" (.mapping [])) "t").map FluentMCP.ToolInfo.description
        = some "" := by
  have h := tool_description_extraction "t" none [] [] (.ZodString (some "has text") []) []
  exact ⟨h.2.2.1 rfl, h.2.2.2.2⟩
